import Mathlib

/-!
# Verification of the email-analyzer header parsing core

A shallow embedding of `src/email_analyzer/parser.py`, `report.py` and the
geolocation attachment loop of the email-analyzer repository, together with
theorems checking the natural-language specification against it.

Strings are modelled as `List Char`.  Python regular-expression searches are
modelled by explicit scanners that reproduce the backtracking priority order
of the CPython `re` engine (leftmost start position first; greedy quantifiers
try longer matches first, lazy quantifiers shorter ones; alternatives are
tried in written order).  Character classes (`\s`, `\w`, `str.lower`,
`str.strip`, `str.split`) are modelled at ASCII fidelity, which covers the
header material the program is designed for.
-/

namespace EmailAnalyzer

/-- ASCII model of Python's `\s` / `str.split()` / `str.strip()` whitespace. -/
def isWsChar (c : Char) : Bool :=
  c = ' ' || c = '\t' || c = '\n' || c = '\r' || c = '\x0b' || c = '\x0c'

/-- Decimal digit, the `[0-9]` class. -/
def isDigitChar (c : Char) : Bool := '0' ≤ c && c ≤ '9'

/-- ASCII model of the regex word class `\w` (used for `\b` boundaries). -/
def isWordChar (c : Char) : Bool := c.isAlphanum || c = '_'

/-- Word-character test on an optional character; the absent character (start
or end of the subject string) counts as a non-word character. -/
def isWordOpt : Option Char → Bool
  | none => false
  | some c => isWordChar c

/-- A word boundary `\b` stands between characters `a` and `b` iff exactly one
of the two is a word character. -/
def wordBoundary (a b : Option Char) : Bool := isWordOpt a != isWordOpt b

/-- ASCII model of `str.lower` on one character. -/
def lcChar (c : Char) : Char := c.toLower

/-- ASCII model of Python's `str.lower()`. -/
def lcList (l : List Char) : List Char := l.map lcChar

/-- Length of the leading whitespace run (what a greedy `\s*` consumes). -/
def leadingWs (l : List Char) : Nat := (l.takeWhile isWsChar).length

/-- ASCII model of Python's `str.strip()`. -/
def stripChars (l : List Char) : List Char :=
  ((l.dropWhile isWsChar).reverse.dropWhile isWsChar).reverse

/-- Helper of `wsWords`: accumulates the current word (reversed). -/
def wsWordsGo (cur : List Char) : List Char → List (List Char)
  | [] => if cur.isEmpty then [] else [cur.reverse]
  | c :: t =>
    if isWsChar c then
      if cur.isEmpty then wsWordsGo [] t else cur.reverse :: wsWordsGo [] t
    else wsWordsGo (c :: cur) t

/-- ASCII model of Python's `str.split()` with no argument: the maximal
whitespace-free words, empty words dropped. -/
def wsWords (l : List Char) : List (List Char) := wsWordsGo [] l

/-- Join of a word list with single spaces. -/
def joinSpace : List (List Char) → List Char
  | [] => []
  | [w] => w
  | w :: x :: ws => w ++ ' ' :: joinSpace (x :: ws)

/-- Model of `' '.join(raw.split())`: collapse all whitespace runs (including
folded newlines) to single spaces and trim the ends. -/
def normalizeWs (l : List Char) : List Char := joinSpace (wsWords l)

/-- Case-sensitive list-prefix test (`pat` is a literal). -/
def startsWithLit : List Char → List Char → Bool
  | [], _ => true
  | _ :: _, [] => false
  | p :: ps, c :: cs => p = c && startsWithLit ps cs

/-- Case-insensitive prefix test: `pat` is given in lowercase and is compared
against the lowercased subject, modelling a literal under `re.IGNORECASE`. -/
def startsWithCI : List Char → List Char → Bool
  | [], _ => true
  | _ :: _, [] => false
  | p :: ps, c :: cs => p = lcChar c && startsWithCI ps cs

/-- Python's substring containment `pat in s` (case-sensitive). -/
def containsSub (pat : List Char) : List Char → Bool
  | [] => startsWithLit pat []
  | c :: cs => startsWithLit pat (c :: cs) || containsSub pat cs

/-- First `some` produced by `f` along the list, in list order (the order in
which a backtracking regex engine tries its alternatives). -/
def firstSome (f : α → Option β) : List α → Option β
  | [] => none
  | a :: t =>
    match f a with
    | some b => some b
    | none => firstSome f t

/-! ## Transport classifier (`_detect_tls_encryption`)

Source constants `TLS_INDICATOR_TOKENS` and `PLAINTEXT_PROTOCOL_PATTERN`
(parser.py lines 60-64), source function at parser.py lines 115-127. -/

/-- The fixed encryption token list, in source order. -/
def TLS_INDICATOR_TOKENS : List (List Char) :=
  ["esmtps".data, "esmtpsa".data, "smtps".data, "with tls".data,
   "starttls".data, "tls".data, "ssl".data, "encrypted".data]

/-- The `for`-loop over `TLS_INDICATOR_TOKENS` with Python's `in`:
substring containment of any token. -/
def tlsTokenPresent (lower : List Char) : Bool :=
  TLS_INDICATOR_TOKENS.any (fun t => containsSub t lower)

/-- One alternative of `(smtp|esmtp|lmtp)\b`: a case-insensitive literal
followed by a word boundary. -/
def plainProtoAlt (rest : List Char) : Bool :=
  ["smtp".data, "esmtp".data, "lmtp".data].any fun p =>
    startsWithCI p rest && !isWordOpt (rest.drop p.length).head?

/-- Attempt of `\bwith\s+(smtp|esmtp|lmtp)\b` at one fixed position, given the
character preceding the position.  The alternatives all start with a non-space
character, so only the maximal `\s+` consumption can succeed. -/
def plainProtoAt (prev : Option Char) (l : List Char) : Bool :=
  !isWordOpt prev && startsWithCI "with".data l &&
    (let rest := l.drop 4
     let a := leadingWs rest
     decide (1 ≤ a) && plainProtoAlt (rest.drop a))

/-- Search model of `PLAINTEXT_PROTOCOL_PATTERN`: scan start positions left
to right, as `re.search` does. -/
def plainProtoSearch (prev : Option Char) : List Char → Bool
  | [] => false
  | c :: cs => plainProtoAt prev (c :: cs) || plainProtoSearch (some c) cs

/-- `_detect_tls_encryption` (parser.py lines 115-127): lowercase the raw
header, return `True` on any substring match of an encryption token, else
`False` on a `\bwith\s+(smtp|esmtp|lmtp)\b` match, else `None`. -/
def detectTlsEncryption (raw : List Char) : Option Bool :=
  let lower := lcList raw
  if tlsTokenPresent lower then some true
  else if plainProtoSearch none lower then some false
  else none

/-! ## Address extractor (`IPV4_PATTERN`, `IPV6_PATTERN`,
`_extract_ip_addresses_from_header`)

`IPV4_SEGMENT = 25[0-5]|(?:2[0-4]|1{0,1}[0-9]){0,1}[0-9]` and
`IPV4_ADDRESS = (?<![0-9.])(?:SEG\.){3,3}SEG(?![0-9.])`
(parser.py lines 20-21, 53). -/

/-- Digit or dot: the class of the lookaround guards `(?<![0-9.])` and
`(?![0-9.])`. -/
def isDigitDot (c : Char) : Bool := isDigitChar c || c = '.'

/-- All lengths `IPV4_SEGMENT` can consume at the head of `l`, in the regex
engine's backtracking priority order: the alternative `25[0-5]` first, then
`(?:2[0-4]|1{0,1}[0-9]){0,1}[0-9]` with a greedy optional prefix whose own
alternatives are tried in written order (`2[0-4]`, then `1[0-9]`, then a bare
leading digit), and the empty prefix last. -/
def segLens (l : List Char) : List Nat :=
  (match l with
   | c0 :: c1 :: c2 :: _ =>
     (if c0 = '2' && c1 = '5' && ('0' ≤ c2 && c2 ≤ '5') then [3] else []) ++
     (if c0 = '2' && ('0' ≤ c1 && c1 ≤ '4') && isDigitChar c2 then [3] else []) ++
     (if c0 = '1' && isDigitChar c1 && isDigitChar c2 then [3] else [])
   | _ => []) ++
  (match l with
   | c0 :: c1 :: _ => if isDigitChar c0 && isDigitChar c1 then [2] else []
   | _ => []) ++
  (match l with
   | c0 :: _ => if isDigitChar c0 then [1] else []
   | _ => [])

/-- The trailing lookahead `(?![0-9.])` of `IPV4_ADDRESS`. -/
def ipv4LookaheadOk (l : List Char) : Bool :=
  match l with
  | [] => true
  | c :: _ => !isDigitDot c

/-- All lengths `(?:SEG\.){k}SEG(?![0-9.])` can consume at the head of `l`,
in backtracking priority order. -/
def ipv4Lens : Nat → List Char → List Nat
  | 0, l => (segLens l).filter (fun n => ipv4LookaheadOk (l.drop n))
  | k + 1, l =>
    (segLens l).flatMap fun n =>
      match l.drop n with
      | '.' :: rest => (ipv4Lens k rest).map (fun m => n + 1 + m)
      | _ => []

/-- One match attempt of `IPV4_PATTERN` at a fixed position: the lookbehind
`(?<![0-9.])` against the preceding character, then the first successful
parse of four dot-separated segments with the trailing lookahead. -/
def ipv4MatchAt (prev : Option Char) (l : List Char) : Option Nat :=
  if (match prev with | none => false | some p => isDigitDot p) then none
  else (ipv4Lens 3 l).head?

/-- Driver of `re.findall`: scan start positions left to right; on a match, emit
the matched text and resume at its end (after an empty match, advance one
position, as CPython does).  `fuel` only bounds the recursion; it is always
called with `length + 1`, which the scan (consuming at least one character
per step) never exhausts. -/
def scanAll (matchAt : Option Char → List Char → Option Nat) :
    Nat → Option Char → List Char → List (List Char)
  | 0, _, _ => []
  | fuel + 1, prev, l =>
    match matchAt prev l with
    | some (n + 1) =>
      l.take (n + 1) ::
        scanAll matchAt fuel (l.take (n + 1)).getLast? (l.drop (n + 1))
    | some 0 =>
      match l with
      | [] => [[]]
      | c :: cs => [] :: scanAll matchAt fuel (some c) cs
    | none =>
      match l with
      | [] => []
      | c :: cs => scanAll matchAt fuel (some c) cs

/-- Model of `IPV4_PATTERN.findall(raw_header)`. -/
def ipv4FindAll (l : List Char) : List (List Char) :=
  scanAll ipv4MatchAt (l.length + 1) none l

/-! ### IPv6 pattern (parser.py lines 24-38, 54)

The verbose pattern is an ordered alternation of twelve branches built from
`IPV6_SEGMENT = [0-9a-fA-F]{1,4}`, wrapped in `\b ... \b`.  Sub-patterns are
modelled as functions returning every length they can consume at the head of
the subject, in backtracking priority order. -/

/-- Hexadecimal digit, the `[0-9a-fA-F]` class. -/
def isHexChar (c : Char) : Bool :=
  isDigitChar c || ('a' ≤ c && c ≤ 'f') || ('A' ≤ c && c ≤ 'F')

/-- Sequencing of two sub-patterns (priority order of the first is major). -/
def seqM (p q : List Char → List Nat) (l : List Char) : List Nat :=
  (p l).flatMap fun n => (q (l.drop n)).map (fun m => n + m)

/-- Ordered alternation of two sub-patterns. -/
def altM (p q : List Char → List Nat) (l : List Char) : List Nat := p l ++ q l

/-- A single literal character. -/
def litChar (c : Char) : List Char → List Nat
  | c2 :: _ => if c2 = c then [1] else []
  | [] => []

/-- A case-sensitive literal (the pattern is compiled without IGNORECASE). -/
def litList (pat : List Char) (l : List Char) : List Nat :=
  if startsWithLit pat l then [pat.length] else []

/-- Exactly `k` repetitions of a sub-pattern. -/
def repExact (p : List Char → List Nat) : Nat → List Char → List Nat
  | 0, _ => [0]
  | k + 1, l => (p l).flatMap fun n => (repExact p k (l.drop n)).map (fun m => n + m)

/-- Greedy counted repetition `p{lo,hi}`: higher repetition counts first. -/
def repRange (p : List Char → List Nat) (lo hi : Nat) (l : List Char) : List Nat :=
  ((List.range (hi + 1 - lo)).map (fun i => hi - i)).flatMap fun k => repExact p k l

/-- Greedy character-class repetition `{1,hi}` over class `cls`. -/
def classRun (cls : Char → Bool) (hi : Nat) (l : List Char) : List Nat :=
  let r := min (l.takeWhile cls).length hi
  (List.range r).map (fun i => r - i)

/-- The segment `[0-9a-fA-F]{1,4}`, greedy. -/
def hexSeg : List Char → List Nat := classRun isHexChar 4

/-- Zone index `[0-9a-zA-Z]{1,}`, greedy (bounded by the run length). -/
def zoneRun (l : List Char) : List Nat :=
  classRun (fun c => c.isAlphanum) (l.takeWhile (fun c => c.isAlphanum)).length l

/-- The run `0{1,4}`, greedy. -/
def zeroRun : List Char → List Nat := classRun (fun c => c = '0') 4

/-- One `SEG:` group. -/
def segColon : List Char → List Nat := seqM hexSeg (litChar ':')

/-- One `:SEG` group. -/
def colonSeg : List Char → List Nat := seqM (litChar ':') hexSeg

/-- The embedded `IPV4_ADDRESS` of branches 11 and 12.  Its lookbehind
`(?<![0-9.])` always holds there (the preceding character is `:`); its
lookahead is part of `ipv4Lens`. -/
def ipv4Part (l : List Char) : List Nat := ipv4Lens 3 l

/-- Branch `(SEG:){7,7}SEG`. -/
def ipv6b1 : List Char → List Nat := seqM (repExact segColon 7) hexSeg

/-- Branch `(SEG:){1,7}:`. -/
def ipv6b2 : List Char → List Nat := seqM (repRange segColon 1 7) (litChar ':')

/-- Branch `(SEG:){1,6}:SEG`. -/
def ipv6b3 : List Char → List Nat := seqM (repRange segColon 1 6) colonSeg

/-- Branch `(SEG:){1,5}(:SEG){1,2}`. -/
def ipv6b4 : List Char → List Nat :=
  seqM (repRange segColon 1 5) (repRange colonSeg 1 2)

/-- Branch `(SEG:){1,4}(:SEG){1,3}`. -/
def ipv6b5 : List Char → List Nat :=
  seqM (repRange segColon 1 4) (repRange colonSeg 1 3)

/-- Branch `(SEG:){1,3}(:SEG){1,4}`. -/
def ipv6b6 : List Char → List Nat :=
  seqM (repRange segColon 1 3) (repRange colonSeg 1 4)

/-- Branch `(SEG:){1,2}(:SEG){1,5}`. -/
def ipv6b7 : List Char → List Nat :=
  seqM (repRange segColon 1 2) (repRange colonSeg 1 5)

/-- Branch `SEG:(?:(?::SEG){1,6})`. -/
def ipv6b8 : List Char → List Nat :=
  seqM hexSeg (seqM (litChar ':') (repRange colonSeg 1 6))

/-- Branch `:(?:(?::SEG){1,7}|:)`. -/
def ipv6b9 : List Char → List Nat :=
  seqM (litChar ':') (altM (repRange colonSeg 1 7) (litChar ':'))

/-- Branch `fe80:(?::SEG){0,4}%[0-9a-zA-Z]{1,}`. -/
def ipv6b10 : List Char → List Nat :=
  seqM (litList "fe80".data)
    (seqM (litChar ':')
      (seqM (repRange colonSeg 0 4) (seqM (litChar '%') zoneRun)))

/-- The optional group `ffff(?::0{1,4}){0,1}:` of branch 11. -/
def ffffGroup : List Char → List Nat :=
  seqM (litList "ffff".data)
    (seqM (repRange (seqM (litChar ':') zeroRun) 0 1) (litChar ':'))

/-- Branch `::(?:ffff(?::0{1,4}){0,1}:){0,1}IPV4`. -/
def ipv6b11 : List Char → List Nat :=
  seqM (litList "::".data) (seqM (repRange ffffGroup 0 1) ipv4Part)

/-- Branch `(SEG:){1,4}:IPV4`. -/
def ipv6b12 : List Char → List Nat :=
  seqM (repRange segColon 1 4) (seqM (litChar ':') ipv4Part)

/-- The full alternation body of `IPV6_ADDRESS`, branches in written order. -/
def ipv6Body (l : List Char) : List Nat :=
  ipv6b1 l ++ ipv6b2 l ++ ipv6b3 l ++ ipv6b4 l ++ ipv6b5 l ++ ipv6b6 l ++
  ipv6b7 l ++ ipv6b8 l ++ ipv6b9 l ++ ipv6b10 l ++ ipv6b11 l ++ ipv6b12 l

/-- One match attempt of `IPV6_PATTERN` at a fixed position: leading `\b`
against the preceding character, the alternation body, trailing `\b`. -/
def ipv6MatchAt (prev : Option Char) (l : List Char) : Option Nat :=
  if wordBoundary prev l.head? then
    ((ipv6Body l).filter
      (fun n => wordBoundary (l.take n).getLast? (l.drop n).head?)).head?
  else none

/-- Model of `IPV6_PATTERN.findall(raw_header)`. -/
def ipv6FindAll (l : List Char) : List (List Char) :=
  scanAll ipv6MatchAt (l.length + 1) none l

/-- Conversion of a matched character list to a Python string result. -/
def strFromChars (l : List Char) : String := String.mk l

/-- Model of `_extract_ip_addresses_from_header` (parser.py lines 106-112):
all IPv4 matches if there is at least one, otherwise all IPv6 matches. -/
def extractIpAddressesFromHeader (raw : List Char) : List String :=
  let v4 := ipv4FindAll raw
  if v4.isEmpty then (ipv6FindAll raw).map strFromChars
  else v4.map strFromChars

/-! ## Hop field extractor (`_parse_received_single`, parser.py lines 130-171)

The five clause patterns are `re.search`es with `re.IGNORECASE` over the
whitespace-normalized header copy.  The lazy captures `.+?` are modelled by
trying capture lengths shortest-first; the greedy `\s+` before a capture is
modelled by trying its consumption longest-first, which is the engine's
backtracking priority.  A capture of `.` cannot contain a newline. -/

/-- Descending list `[a, a-1, ..., 1]` (greedy quantifier priority). -/
def descRange (a : Nat) : List Nat := (List.range a).map (fun i => a - i)

/-- Ascending list `[1, 2, ..., m]` (lazy quantifier priority). -/
def ascRange (m : Nat) : List Nat := (List.range m).map (· + 1)

/-- The dot of `.+?` matches anything but a newline. -/
def noNewline (l : List Char) : Bool := !(l.contains '\n')

/-- Tail `\s+(?:t₁|t₂|...)` after a capture: the terminators are literals
under IGNORECASE, none of which starts with whitespace, so only the maximal
`\s+` consumption can be followed by one of them. -/
def clauseTermOk (terms : List (List Char)) (after : List Char) : Bool :=
  let b := leadingWs after
  decide (1 ≤ b) && terms.any (fun t => startsWithCI t (after.drop b))

/-- Tail `\s*(?:;|$)` of the `for` clause; `$` also matches just before a
string-final newline, a position `\s*` consumption subsumes. -/
def forTailOk (after : List Char) : Bool :=
  let rem := after.drop (leadingWs after)
  rem.isEmpty || rem.head? == some ';'

/-- One attempt, at a fixed position, of `\bKW\s+(.+?)` followed by a tail
pattern: word boundary (every keyword starts with a word character, so the
preceding character must be non-word), the keyword literal under IGNORECASE,
then the greedy/lazy backtracking over `\s+` and the capture. -/
def matchLazyClauseAt (kw : List Char) (tailOk : List Char → Bool)
    (prev : Option Char) (l : List Char) : Option (List Char) :=
  if isWordOpt prev then none
  else if startsWithCI kw l then
    let rest := l.drop kw.length
    firstSome
      (fun j =>
        firstSome
          (fun caplen =>
            let cap := (rest.drop j).take caplen
            if noNewline cap && tailOk (rest.drop (j + caplen)) then some cap
            else none)
          (ascRange (rest.length - j)))
      (descRange (leadingWs rest))
  else none

/-- One attempt of `\bid\s+(\S+)`: both quantifiers are greedy over disjoint
classes, so the capture is the maximal non-whitespace run after the maximal
whitespace run. -/
def matchIdAt (prev : Option Char) (l : List Char) : Option (List Char) :=
  if isWordOpt prev then none
  else if startsWithCI "id".data l then
    let rest := l.drop 2
    let a := leadingWs rest
    if 1 ≤ a then
      let tok := (rest.drop a).takeWhile (fun c => !isWsChar c)
      if tok.isEmpty then none else some tok
    else none
  else none

/-- Driver of `re.search`: try start positions left to right, return the
first successful match attempt.  As in `scanAll`, the fuel `length + 1`
covers every position. -/
def searchScan (matchAt : Option Char → List Char → Option α) :
    Nat → Option Char → List Char → Option α
  | 0, _, _ => none
  | fuel + 1, prev, l =>
    match matchAt prev l with
    | some r => some r
    | none =>
      match l with
      | [] => none
      | c :: cs => searchScan matchAt fuel (some c) cs

/-- Search of `\bfrom\s+(?P<from_host>.+?)\s+(?:by|with|id|for|;)`. -/
def searchFromHost (l : List Char) : Option (List Char) :=
  searchScan
    (matchLazyClauseAt "from".data
      (clauseTermOk ["by".data, "with".data, "id".data, "for".data, ";".data]))
    (l.length + 1) none l

/-- Search of `\bby\s+(?P<by_host>.+?)\s+(?:with|id|for|;)`. -/
def searchByHost (l : List Char) : Option (List Char) :=
  searchScan
    (matchLazyClauseAt "by".data
      (clauseTermOk ["with".data, "id".data, "for".data, ";".data]))
    (l.length + 1) none l

/-- Search of `\bwith\s+(?P<with_proto>.+?)\s+(?:id|for|;)`. -/
def searchWithProto (l : List Char) : Option (List Char) :=
  searchScan
    (matchLazyClauseAt "with".data
      (clauseTermOk ["id".data, "for".data, ";".data]))
    (l.length + 1) none l

/-- Search of `\bid\s+(?P<id>\S+)`. -/
def searchTransferId (l : List Char) : Option (List Char) :=
  searchScan matchIdAt (l.length + 1) none l

/-- Search of `\bfor\s+(?P<for_addr>.+?)\s*(?:;|$)`. -/
def searchForAddr (l : List Char) : Option (List Char) :=
  searchScan (matchLazyClauseAt "for".data forTailOk) (l.length + 1) none l

/-! ## Timestamp extraction (`_extract_timestamp_from_received_header`,
parser.py lines 95-103) -/

/-- A parsed date-time value.  The timezone offset is in minutes; `none`
models a naive (offset-free) result. -/
structure DateTime where
  year : Nat
  month : Nat
  day : Nat
  hour : Nat
  minute : Nat
  second : Nat
  tzOffsetMinutes : Option Int
deriving DecidableEq

/-- The substring after the last `;`, as `raw.rsplit(';', 1)[1]` produces
when a `;` is present. -/
def afterLastSemi (l : List Char) : List Char :=
  (l.reverse.takeWhile (fun c => c ≠ ';')).reverse

/-- Value of an all-digit token. -/
def natOfDigits? (l : List Char) : Option Nat :=
  if l.isEmpty || !(l.all isDigitChar) then none
  else some (l.foldl (fun acc c => acc * 10 + (c.toNat - '0'.toNat)) 0)

/-- Month names accepted by the modelled permissive parser. -/
def MONTH_NAMES : List (List Char × Nat) :=
  [("jan".data, 1), ("feb".data, 2), ("mar".data, 3), ("apr".data, 4),
   ("may".data, 5), ("jun".data, 6), ("jul".data, 7), ("aug".data, 8),
   ("sep".data, 9), ("oct".data, 10), ("nov".data, 11), ("dec".data, 12),
   ("january".data, 1), ("february".data, 2), ("march".data, 3),
   ("april".data, 4), ("june".data, 6), ("july".data, 7),
   ("august".data, 8), ("september".data, 9), ("october".data, 10),
   ("november".data, 11), ("december".data, 12)]

/-- Month number of a (case-insensitive) month-name token. -/
def monthNum? (l : List Char) : Option Nat :=
  (MONTH_NAMES.find? (fun p => p.1 = lcList l)).map (fun p => p.2)

/-- Split on a separator character (empty fields kept). -/
def splitOnCharGo (sep : Char) (cur : List Char) : List Char → List (List Char)
  | [] => [cur.reverse]
  | c :: t =>
    if c = sep then cur.reverse :: splitOnCharGo sep [] t
    else splitOnCharGo sep (c :: cur) t

/-- Split a token on a separator character. -/
def splitOnChar (sep : Char) (l : List Char) : List (List Char) :=
  splitOnCharGo sep [] l

/-- Hour, minute and second of a `HH:MM` or `HH:MM:SS` token. -/
def timeOfToken? (l : List Char) : Option (Nat × Nat × Nat) :=
  match splitOnChar ':' l with
  | [h, m] => do
    let hh ← natOfDigits? h
    let mm ← natOfDigits? m
    if hh ≤ 23 && mm ≤ 59 then some (hh, mm, 0) else none
  | [h, m, s] => do
    let hh ← natOfDigits? h
    let mm ← natOfDigits? m
    let ss ← natOfDigits? s
    if hh ≤ 23 && mm ≤ 59 && ss ≤ 59 then some (hh, mm, ss) else none
  | _ => none

/-- Offset minutes of a `+HHMM` / `-HHMM` numeric zone or a named UTC zone. -/
def tzOfToken? (l : List Char) : Option Int :=
  match l with
  | '+' :: ds =>
    if ds.length = 4 && ds.all isDigitChar then do
      let hh ← natOfDigits? (ds.take 2)
      let mm ← natOfDigits? (ds.drop 2)
      some ((hh * 60 + mm : Nat) : Int)
    else none
  | '-' :: ds =>
    if ds.length = 4 && ds.all isDigitChar then do
      let hh ← natOfDigits? (ds.take 2)
      let mm ← natOfDigits? (ds.drop 2)
      some (-((hh * 60 + mm : Nat) : Int))
    else none
  | _ =>
    if lcList l = "ut".data || lcList l = "utc".data || lcList l = "gmt".data
    then some 0 else none

/-- Drop of an optional leading weekday token (`Mon,`). -/
def dropWeekday (toks : List (List Char)) : List (List Char) :=
  match toks with
  | [] => []
  | t :: rest =>
    if t.getLast? == some ',' && !t.dropLast.isEmpty &&
        t.dropLast.all (fun c => c.isAlpha)
    then rest else t :: rest

/-- Drop of one trailing parenthesized comment, e.g. `(UTC)` after the
offset. -/
def dropTrailingComment (l : List Char) : List Char :=
  let s := stripChars l
  if s.getLast? == some ')' && s.contains '(' then
    stripChars (((s.reverse.dropWhile (fun c => c ≠ '(')).drop 1).reverse)
  else s

/-- Token-level parse of an RFC-2822-style date. -/
def dtparseCore (toks : List (List Char)) : Option DateTime :=
  match dropWeekday toks with
  | day :: mon :: year :: time :: rest => do
    let d ← natOfDigits? day
    let mo ← monthNum? mon
    let y ← natOfDigits? year
    let (hh, mi, ss) ← timeOfToken? time
    if 1 ≤ d && d ≤ 31 && year.length = 4 then
      match rest with
      | [] => some ⟨y, mo, d, hh, mi, ss, none⟩
      | [tz] => do
        let off ← tzOfToken? tz
        some ⟨y, mo, d, hh, mi, ss, some off⟩
      | _ => none
    else none
  | _ => none

/-- Modelled from the spec: the permissive date parser invoked here is the
third-party `dateutil.parser.parse`, which is not part of this repository's
sources.  Per the spec it "must accept RFC-2822-style dates and common
variants such as comments in parentheses trailing the offset"; this model
accepts exactly that shape (optional weekday, day, month name, 4-digit year,
time, optional numeric or UTC-named offset, optional trailing parenthesized
comment) and raises — returns `Except.error` — on anything else, which the
caller's `try/except` turns into an absent timestamp. -/
def dtparseE (l : List Char) : Except String DateTime :=
  match dtparseCore (wsWords (dropTrailingComment l)) with
  | some d => .ok d
  | none => .error "could not parse date"

/-- Model of `_extract_timestamp_from_received_header` (parser.py lines
95-103): absent without a `;`; otherwise the stripped text after the last `;`
is parsed, and a parse error degrades to absent. -/
def extractTimestampFromReceivedHeader (raw : List Char) : Option DateTime :=
  if ';' ∈ raw then (dtparseE (stripChars (afterLastSemi raw))).toOption
  else none

/-! ## Data model (`Hop`, parser.py lines 66-88; `geolocate_ip`'s record,
geolocate.py lines 18-26) -/

/-- The record built by `geolocate_ip` on a successful lookup.  The JSON
scalar payloads (including the numeric `lat`/`lon`) are modelled as opaque
strings; the assembly logic never inspects them. -/
structure GeoRecord where
  ip : String
  country : Option String := none
  country_iso : Option String := none
  city : Option String := none
  lat : Option String := none
  lon : Option String := none
  timezone : Option String := none
deriving DecidableEq

/-- The `Hop` dataclass (parser.py lines 66-82); `ips` defaults to the empty
list as `__post_init__` arranges, `geo` is attached only later by the report
assembler. -/
structure Hop where
  index : Nat
  raw : String
  from_host : Option String := none
  by_host : Option String := none
  with_proto : Option String := none
  id : Option String := none
  for_addr : Option String := none
  timestamp : Option DateTime := none
  ips : List String := []
  tls : Option Bool := none
  geo : Option GeoRecord := none
deriving DecidableEq

/-- Python's `value.strip()` on a string result. -/
def stripStr (s : String) : String := strFromChars (stripChars s.data)

/-- Model of `_parse_received_single` (parser.py lines 130-171): normalize a
copy of the header, keep `raw` verbatim, extract the timestamp from the raw
text, run the five independent clause searches on the normalized copy with
`.strip()` on each captured group, and extract addresses and the TLS
tri-state from the raw text. -/
def parseReceivedSingle (raw : String) (index : Nat) : Hop :=
  let rawL := raw.data
  let norm := normalizeWs rawL
  { index := index
    raw := raw
    from_host := (searchFromHost norm).map (fun c => strFromChars (stripChars c))
    by_host := (searchByHost norm).map (fun c => strFromChars (stripChars c))
    with_proto := (searchWithProto norm).map (fun c => strFromChars (stripChars c))
    id := (searchTransferId norm).map (fun c => strFromChars (stripChars c))
    for_addr := (searchForAddr norm).map (fun c => strFromChars (stripChars c))
    timestamp := extractTimestampFromReceivedHeader rawL
    ips := extractIpAddressesFromHeader rawL
    tls := detectTlsEncryption rawL
    geo := none }

/-- The parsed message object, reduced to the header lists the core reads;
`get_all(name) or []` on an absent header is the empty list. -/
structure EmailMessage where
  received : List String
  authResults : List String
  dkimSignature : List String
  receivedSpf : List String

/-- The `enumerate` loop of `parse_received_hops` over the reversed header
list. -/
def parseReceivedHopsGo (i : Nat) : List String → List Hop
  | [] => []
  | h :: t => parseReceivedSingle h i :: parseReceivedHopsGo (i + 1) t

/-- Model of `parse_received_hops` (parser.py lines 173-185): reverse the
`Received` values into chronological order and parse each with its index. -/
def parseReceivedHops (m : EmailMessage) : List Hop :=
  parseReceivedHopsGo 0 m.received.reverse

/-! ## Authentication results parser (parser.py lines 187-222) -/

/-- One parsed `Authentication-Results` header: the `entry` dict with its
three optional keys. -/
structure AuthVerdict where
  spf : Option String := none
  dkim : Option String := none
  dmarc : Option String := none
deriving DecidableEq

/-- One attempt of `\bKEY=(v₁|v₂|...)\b` at a fixed position: word boundary,
the `KEY=` literal under IGNORECASE, then the first alternative that matches
and is followed by a word boundary. -/
def matchKVAt (key : List Char) (vocab : List (List Char)) (prev : Option Char)
    (l : List Char) : Option (List Char) :=
  if isWordOpt prev then none
  else if startsWithCI (key ++ ['=']) l then
    let rest := l.drop (key.length + 1)
    firstSome
      (fun v =>
        if startsWithCI v rest && !isWordOpt (rest.drop v.length).head? then
          some v
        else none)
      vocab
  else none

/-- Search of one `KEY=` verdict token; the captured group is lowercased,
which yields the (lowercase) vocabulary entry itself. -/
def searchKV (key : List Char) (vocab : List (List Char)) (l : List Char) :
    Option (List Char) :=
  searchScan (matchKVAt key vocab) (l.length + 1) none l

/-- The closed SPF vocabulary, in source alternation order. -/
def SPF_VOCAB : List (List Char) :=
  ["pass".data, "fail".data, "neutral".data, "none".data, "softfail".data,
   "temperror".data]

/-- The closed DKIM vocabulary, in source alternation order. -/
def DKIM_VOCAB : List (List Char) :=
  ["pass".data, "fail".data, "none".data, "neutral".data]

/-- The closed DMARC vocabulary, in source alternation order. -/
def DMARC_VOCAB : List (List Char) :=
  ["pass".data, "fail".data, "none".data, "bestguesspass".data]

/-- Model of `_parse_single_authentication_header` (parser.py lines
187-205). -/
def parseSingleAuthenticationHeader (h : String) : AuthVerdict :=
  { spf := (searchKV "spf".data SPF_VOCAB h.data).map strFromChars
    dkim := (searchKV "dkim".data DKIM_VOCAB h.data).map strFromChars
    dmarc := (searchKV "dmarc".data DMARC_VOCAB h.data).map strFromChars }

/-- The dict returned by `parse_authentication_results`. -/
structure AuthResults where
  raw : List String
  parsed : List AuthVerdict
  dkim_signature : List String
  received_spf : List String
deriving DecidableEq

/-- Model of `parse_authentication_results` (parser.py lines 208-222): one
verdict per header in header order, plus verbatim pass-through headers. -/
def parseAuthenticationResults (m : EmailMessage) : AuthResults :=
  { raw := m.authResults
    parsed := m.authResults.map parseSingleAuthenticationHeader
    dkim_signature := m.dkimSignature
    received_spf := m.receivedSpf }

/-! ## Report assembler geolocation loop (report.py lines 17-22)

The external collaborator `geolocate_ip` is network code outside the core;
it is modelled as a parameter of type `String → Option GeoRecord` (`None`
on any failure, as its contract requires). -/

/-- One iteration of the geolocation loop: a hop with at least one address
gets `geo` set to the lookup result for the first address; a hop with no
addresses is left untouched. -/
def geoAttachOne (geoFn : String → Option GeoRecord) (h : Hop) : Hop :=
  match h.ips with
  | [] => h
  | ip :: _ => { h with geo := geoFn ip }

/-- The whole geolocation loop of `build_report`. -/
def attachGeolocation (geoFn : String → Option GeoRecord) (hops : List Hop) :
    List Hop :=
  hops.map (geoAttachOne geoFn)

/-- The sequence of arguments passed to the collaborator by the loop, in
loop order. -/
def geoCallTrace : List Hop → List String
  | [] => []
  | h :: t => (match h.ips with | [] => [] | ip :: _ => [ip]) ++ geoCallTrace t

/-! ## Helper lemmas -/

lemma dropWhile_dropWhile (p : Char → Bool) (l : List Char) :
    (l.dropWhile p).dropWhile p = l.dropWhile p := by
  induction l with
  | nil => rfl
  | cons c t ih =>
    by_cases h : p c
    · simp [List.dropWhile, h, ih]
    · simp [List.dropWhile, h]

lemma head?_dropWhile_not (p : Char → Bool) (l : List Char) :
    ∀ c, (l.dropWhile p).head? = some c → p c = false := by
  induction l with
  | nil => intro c h; simp at h
  | cons a t ih =>
    intro c h
    by_cases ha : p a
    · exact ih c (by simpa [List.dropWhile, ha] using h)
    · simp [List.dropWhile, ha] at h
      simpa [← h] using ha

lemma dropWhile_eq_self_of_head (p : Char → Bool) (l : List Char)
    (h : ∀ c, l.head? = some c → p c = false) : l.dropWhile p = l := by
  cases l with
  | nil => rfl
  | cons a t => simp [List.dropWhile, h a rfl]

lemma getLast?_dropWhile (p : Char → Bool) (l : List Char) :
    l.dropWhile p = [] ∨ (l.dropWhile p).getLast? = l.getLast? := by
  induction l with
  | nil => exact Or.inl rfl
  | cons a t ih =>
    by_cases ha : p a
    · rcases ih with h0 | hl
      · exact Or.inl (by simp [List.dropWhile, ha, h0])
      · cases t with
        | nil => exact Or.inl (by simp [List.dropWhile, ha])
        | cons b u =>
          exact Or.inr (by simpa [List.dropWhile, ha, List.getLast?_cons_cons] using hl)
    · exact Or.inr (by simp [List.dropWhile, ha])

lemma stripChars_idem (l : List Char) : stripChars (stripChars l) = stripChars l := by
  unfold stripChars
  have h1 : (((l.dropWhile isWsChar).reverse.dropWhile isWsChar).reverse).dropWhile
      isWsChar = ((l.dropWhile isWsChar).reverse.dropWhile isWsChar).reverse := by
    apply dropWhile_eq_self_of_head
    intro c hc
    rw [← List.getLast?_eq_head?_reverse] at hc
    rcases getLast?_dropWhile isWsChar (l.dropWhile isWsChar).reverse with h0 | hl
    · rw [h0] at hc; simp at hc
    · rw [hl, List.getLast?_eq_head?_reverse, List.reverse_reverse] at hc
      exact head?_dropWhile_not isWsChar l c hc
  rw [h1, List.reverse_reverse, dropWhile_dropWhile]

lemma head?_mem {α : Type _} {l : List α} {a : α} (h : l.head? = some a) : a ∈ l := by
  cases l with
  | nil => simp at h
  | cons x t => simp at h; simp [h]

lemma firstSome_eq_some {α β : Type _} {f : α → Option β} {xs : List α} {b : β}
    (h : firstSome f xs = some b) : ∃ a ∈ xs, f a = some b := by
  induction xs with
  | nil => simp [firstSome] at h
  | cons a t ih =>
    rw [firstSome] at h
    cases e : f a with
    | some b2 =>
      rw [e] at h
      injection h with h
      exact ⟨a, by simp, by rw [e, h]⟩
    | none =>
      rw [e] at h
      obtain ⟨a2, ha2, hf⟩ := ih h
      exact ⟨a2, by simp [ha2], hf⟩

lemma searchScan_eq_some {α : Type _} {mA : Option Char → List Char → Option α} :
    ∀ (fuel : Nat) (prev : Option Char) (l : List Char) (r : α),
      searchScan mA fuel prev l = some r → ∃ p2 l2, mA p2 l2 = some r := by
  intro fuel
  induction fuel with
  | zero => intro prev l r h; simp [searchScan] at h
  | succ n ih =>
    intro prev l r h
    simp only [searchScan] at h
    cases e : mA prev l with
    | some r2 =>
      simp only [e] at h
      exact ⟨prev, l, e.trans h⟩
    | none =>
      simp only [e] at h
      cases l with
      | nil => simp at h
      | cons c cs => exact ih (some c) cs r h

lemma matchKVAt_mem {key : List Char} {vocab : List (List Char)}
    {prev : Option Char} {l c : List Char}
    (h : matchKVAt key vocab prev l = some c) : c ∈ vocab := by
  unfold matchKVAt at h
  split_ifs at h
  obtain ⟨v, hv, hf⟩ := firstSome_eq_some h
  split_ifs at hf
  injection hf with hf
  rw [← hf]; exact hv

lemma searchKV_mem {key : List Char} {vocab : List (List Char)} {l c : List Char}
    (h : searchKV key vocab l = some c) : c ∈ vocab := by
  obtain ⟨p2, l2, h2⟩ := searchScan_eq_some (l.length + 1) none l c h
  exact matchKVAt_mem h2

lemma detectTls_true_of_token {l : List Char}
    (h : tlsTokenPresent (lcList l) = true) : detectTlsEncryption l = some true := by
  unfold detectTlsEncryption
  simp [h]

lemma detectTls_false_of {l : List Char}
    (h1 : tlsTokenPresent (lcList l) = false)
    (h2 : plainProtoSearch none (lcList l) = true) :
    detectTlsEncryption l = some false := by
  unfold detectTlsEncryption
  simp [h1, h2]

lemma detectTls_none_of {l : List Char}
    (h1 : tlsTokenPresent (lcList l) = false)
    (h2 : plainProtoSearch none (lcList l) = false) :
    detectTlsEncryption l = none := by
  unfold detectTlsEncryption
  simp [h1, h2]

lemma parseReceivedSingle_index (r : String) (i : Nat) :
    (parseReceivedSingle r i).index = i := rfl

lemma parseReceivedHopsGo_length (i : Nat) (l : List String) :
    (parseReceivedHopsGo i l).length = l.length := by
  induction l generalizing i with
  | nil => rfl
  | cons h t ih => simp [parseReceivedHopsGo, ih]

lemma parseReceivedHopsGo_getElem? (i j : Nat) (l : List String) :
    (parseReceivedHopsGo i l)[j]? =
      (l[j]?).map (fun r => parseReceivedSingle r (i + j)) := by
  induction l generalizing i j with
  | nil => simp [parseReceivedHopsGo]
  | cons h t ih =>
    cases j with
    | zero => simp [parseReceivedHopsGo]
    | succ j =>
      have harith : i + 1 + j = i + (j + 1) := by omega
      simp only [parseReceivedHopsGo, List.getElem?_cons_succ, ih (i + 1) j, harith]

lemma parseReceivedHopsGo_map_index (i : Nat) (l : List String) :
    (parseReceivedHopsGo i l).map (fun h => h.index) = List.range' i l.length := by
  induction l generalizing i with
  | nil => simp [parseReceivedHopsGo]
  | cons h t ih => simp [parseReceivedHopsGo, List.range', ih, parseReceivedSingle_index]

lemma digit_of_le {c m : Char} (hm : m ≤ '9') (h1 : '0' ≤ c) (h2 : c ≤ m) :
    isDigitChar c = true := by
  simp only [isDigitChar, Bool.and_eq_true, decide_eq_true_eq]
  exact ⟨h1, le_trans h2 hm⟩

lemma mem_iteList {c : Prop} [Decidable c] {x : Nat} {xs : List Nat}
    (h : x ∈ if c then xs else []) : c ∧ x ∈ xs := by
  split_ifs at h with hc
  · exact ⟨hc, h⟩
  · simp at h

lemma seg_digits {l : List Char} {n : Nat} (hn : n ∈ segLens l) :
    (l.take n).all isDigitChar = true := by
  cases l with
  | nil => simp [segLens] at hn
  | cons c0 t0 =>
    cases t0 with
    | nil =>
      simp only [segLens] at hn
      rcases List.mem_append.mp hn with hA | hC
      · simp at hA
      · obtain ⟨hc, hm⟩ := mem_iteList hC
        simp only [List.mem_singleton] at hm
        subst hm
        simp [List.all_cons, hc]
    | cons c1 t1 =>
      cases t1 with
      | nil =>
        simp only [segLens] at hn
        rcases List.mem_append.mp hn with hAB | hC
        · rcases List.mem_append.mp hAB with hA | hB
          · simp at hA
          · obtain ⟨hc, hm⟩ := mem_iteList hB
            simp only [List.mem_singleton] at hm
            subst hm
            simp only [Bool.and_eq_true] at hc
            simp [List.all_cons, hc.1, hc.2]
        · obtain ⟨hc, hm⟩ := mem_iteList hC
          simp only [List.mem_singleton] at hm
          subst hm
          simp [List.all_cons, hc]
      | cons c2 t2 =>
        simp only [segLens] at hn
        rcases List.mem_append.mp hn with hAB | hC
        · rcases List.mem_append.mp hAB with hA | hB
          · rcases List.mem_append.mp hA with hA12 | hA3
            · rcases List.mem_append.mp hA12 with hA1 | hA2
              · obtain ⟨hc, hm⟩ := mem_iteList hA1
                simp only [List.mem_singleton] at hm
                subst hm
                simp only [Bool.and_eq_true, decide_eq_true_eq] at hc
                obtain ⟨⟨ha, hb⟩, hc1, hc2⟩ := hc
                subst ha; subst hb
                simp [List.all_cons, isDigitChar]
                exact ⟨hc1, le_trans hc2 (by decide)⟩
              · obtain ⟨hc, hm⟩ := mem_iteList hA2
                simp only [List.mem_singleton] at hm
                subst hm
                simp only [Bool.and_eq_true, decide_eq_true_eq] at hc
                obtain ⟨⟨ha, hb1, hb2⟩, hc2⟩ := hc
                subst ha
                simp only [isDigitChar, Bool.and_eq_true, decide_eq_true_eq] at hc2
                simp [List.all_cons, isDigitChar]
                exact ⟨⟨hb1, le_trans hb2 (by decide)⟩, hc2⟩
            · obtain ⟨hc, hm⟩ := mem_iteList hA3
              simp only [List.mem_singleton] at hm
              subst hm
              simp only [Bool.and_eq_true, decide_eq_true_eq] at hc
              obtain ⟨⟨ha, hb⟩, hc2⟩ := hc
              subst ha
              simp [List.all_cons, hb, hc2]
              decide
          · obtain ⟨hc, hm⟩ := mem_iteList hB
            simp only [List.mem_singleton] at hm
            subst hm
            simp only [Bool.and_eq_true] at hc
            simp [List.all_cons, hc.1, hc.2]
        · obtain ⟨hc, hm⟩ := mem_iteList hC
          simp only [List.mem_singleton] at hm
          subst hm
          simp [List.all_cons, hc]

lemma all_digitDot_of_digit {l : List Char} (h : l.all isDigitChar = true) :
    l.all isDigitDot = true := by
  rw [List.all_eq_true] at h ⊢
  intro x hx
  simp [isDigitDot, h x hx]

lemma ipv4Lens_digitdot :
    ∀ (k : Nat) (l : List Char) (n : Nat), n ∈ ipv4Lens k l →
      (l.take n).all isDigitDot = true := by
  intro k
  induction k with
  | zero =>
    intro l n hn
    unfold ipv4Lens at hn
    exact all_digitDot_of_digit (seg_digits (List.mem_filter.mp hn).1)
  | succ k ih =>
    intro l n hn
    unfold ipv4Lens at hn
    rw [List.mem_flatMap] at hn
    obtain ⟨a, ha, hna⟩ := hn
    split at hna
    · rename_i rest heq
      rw [List.mem_map] at hna
      obtain ⟨m, hm, rfl⟩ := hna
      have h1 : (l.take a).all isDigitDot = true :=
        all_digitDot_of_digit (seg_digits ha)
      have h2 : (rest.take m).all isDigitDot = true := ih rest m hm
      have ht : l.take (a + 1 + m) = l.take a ++ ('.' :: rest.take m) := by
        rw [show a + 1 + m = a + (m + 1) from by omega, List.take_add, heq]
        rfl
      rw [ht, List.all_append, h1, Bool.true_and, List.all_cons, h2]
      simp [isDigitDot]
    · simp at hna

lemma scanAll_ipv4_digitdot :
    ∀ (fuel : Nat) (prev : Option Char) (l s : List Char),
      s ∈ scanAll ipv4MatchAt fuel prev l → s.all isDigitDot = true := by
  intro fuel
  induction fuel with
  | zero => intro prev l s hs; simp [scanAll] at hs
  | succ fuel ih =>
    intro prev l s hs
    simp only [scanAll] at hs
    cases e : ipv4MatchAt prev l with
    | some n =>
      simp only [e] at hs
      cases n with
      | zero =>
        cases l with
        | nil =>
          simp at hs
          simp [hs]
        | cons c cs =>
          simp at hs
          rcases hs with rfl | hs
          · rfl
          · exact ih _ _ _ hs
      | succ n =>
        simp at hs
        rcases hs with rfl | hs
        · unfold ipv4MatchAt at e
          split_ifs at e
          exact ipv4Lens_digitdot 3 l (n + 1) (head?_mem e)
        · exact ih _ _ _ hs
    | none =>
      simp only [e] at hs
      cases l with
      | nil => simp at hs
      | cons c cs => exact ih _ _ _ hs

lemma ipv4FindAll_digitdot {l s : List Char} (hs : s ∈ ipv4FindAll l) :
    s.all isDigitDot = true :=
  scanAll_ipv4_digitdot _ _ _ _ hs

lemma stripStr_of_stripped {x : Option (List Char)} {v : String}
    (hv : x.map (fun c => strFromChars (stripChars c)) = some v) : stripStr v = v := by
  obtain ⟨c, _, rfl⟩ := Option.map_eq_some'.mp hv
  exact congrArg String.mk (stripChars_idem c)

lemma geoCallTrace_eq_filterMap (hops : List Hop) :
    geoCallTrace hops = hops.filterMap (fun h => h.ips.head?) := by
  induction hops with
  | nil => rfl
  | cons h t ih =>
    cases e : h.ips with
    | nil => simp [geoCallTrace, List.filterMap_cons, e, ih]
    | cons ip rest => simp [geoCallTrace, List.filterMap_cons, e, ih]

/-! ## Claim theorems -/

set_option maxRecDepth 4000

/-- C1: for every raw header string (including empty, malformed, or arbitrary
text), `_parse_received_single` returns a `Hop` without raising an exception:
the embedding is a total function; `index` and `raw` are always populated,
`geo` is never set at parse time, and on contentless inputs every extracted
field degrades to absent (`none` / `[]`) — shown on the empty string and on a
malformed fragment whose date part fails to parse. -/
theorem c1_parse_received_single_total :
    (∀ (raw : String) (i : Nat),
      (parseReceivedSingle raw i).index = i ∧
      (parseReceivedSingle raw i).raw = raw ∧
      (parseReceivedSingle raw i).geo = none) ∧
    parseReceivedSingle "" 0 = { index := 0, raw := "" } ∧
    parseReceivedSingle "x-malformed (nonsense; \t 12345" 7 =
      { index := 7, raw := "x-malformed (nonsense; \t 12345" } :=
  ⟨fun _ _ => ⟨rfl, rfl, rfl⟩, by decide, by decide⟩

/-- C2: the hop count equals the `Received` header count, hop indices are
exactly `0..n-1` in sequence order, every hop `j` is parsed from position `j`
of the reversed header list (no timestamp-based re-sorting), hop 0 comes from
the last header in appearance order, and a message with zero `Received`
headers yields `[]` with no error. -/
theorem c2_hop_count_and_order :
    (∀ m : EmailMessage,
      (parseReceivedHops m).length = m.received.length ∧
      (parseReceivedHops m).map (fun h => h.index) = List.range m.received.length ∧
      (∀ j : Nat, (parseReceivedHops m)[j]? =
        (m.received.reverse[j]?).map (fun r => parseReceivedSingle r j)) ∧
      (parseReceivedHops m).head? =
        m.received.getLast?.map (fun r => parseReceivedSingle r 0)) ∧
    parseReceivedHops ⟨[], [], [], []⟩ = [] := by
  refine ⟨fun m => ⟨?_, ?_, fun j => ?_, ?_⟩, rfl⟩
  · rw [show parseReceivedHops m = parseReceivedHopsGo 0 m.received.reverse from rfl,
      parseReceivedHopsGo_length, List.length_reverse]
  · rw [show parseReceivedHops m = parseReceivedHopsGo 0 m.received.reverse from rfl,
      parseReceivedHopsGo_map_index, List.length_reverse, List.range_eq_range']
  · rw [show parseReceivedHops m = parseReceivedHopsGo 0 m.received.reverse from rfl,
      parseReceivedHopsGo_getElem?]
    simp
  · rw [List.getLast?_eq_head?_reverse]
    cases hrev : m.received.reverse with
    | nil => simp [parseReceivedHops, hrev, parseReceivedHopsGo]
    | cons h t => simp [parseReceivedHops, hrev, parseReceivedHopsGo]

/-- C3: the TLS tri-state precedence — any encryption-token substring match
yields `true` regardless of anything else in the header; with no token match,
a `with smtp|esmtp|lmtp` match yields `false`; with neither, the result is
`unknown` (`none`), so an unrecognized protocol token never yields `false`. -/
theorem c3_tls_precedence :
    ∀ l : List Char,
      (tlsTokenPresent (lcList l) = true → detectTlsEncryption l = some true) ∧
      (tlsTokenPresent (lcList l) = false → plainProtoSearch none (lcList l) = true →
        detectTlsEncryption l = some false) ∧
      (tlsTokenPresent (lcList l) = false → plainProtoSearch none (lcList l) = false →
        detectTlsEncryption l = none) :=
  fun _ =>
    ⟨fun h => detectTls_true_of_token h,
     fun h1 h2 => detectTls_false_of h1 h2,
     fun h1 h2 => detectTls_none_of h1 h2⟩

/-- Witness for C3: a header carrying both a TLS token and a plaintext
protocol clause is `true`; a plaintext-only header is `false`; a header with
neither is `unknown`. -/
theorem c3_tls_precedence_witness :
    detectTlsEncryption "with TLS ok with smtp id 1".data = some true ∧
    detectTlsEncryption "by b with SMTP id 3".data = some false ∧
    detectTlsEncryption "by relay.example.org".data = none :=
  ⟨(c3_tls_precedence _).1 (by decide),
   (c3_tls_precedence _).2.1 (by decide) (by decide),
   (c3_tls_precedence _).2.2 (by decide) (by decide)⟩

/-- C4: IPv4-over-IPv6 precedence in the address extractor — whenever at
least one IPv4 literal matches, `ip_addresses` is exactly the IPv4 match
list (in order of occurrence) and contains no IPv6 match (every returned
address is made of digits and dots only, never a coloned form); the IPv6
pattern is scanned only when there are zero IPv4 matches. -/
theorem c4_ipv4_precedence :
    ∀ raw : List Char,
      (ipv4FindAll raw ≠ [] →
        extractIpAddressesFromHeader raw = (ipv4FindAll raw).map strFromChars ∧
        ∀ s ∈ extractIpAddressesFromHeader raw, ':' ∉ s.data) ∧
      (ipv4FindAll raw = [] →
        extractIpAddressesFromHeader raw = (ipv6FindAll raw).map strFromChars) := by
  intro raw
  constructor
  · intro hne
    have he : (ipv4FindAll raw).isEmpty = false := by
      rw [Bool.eq_false_iff]
      intro h
      exact hne (List.isEmpty_iff.mp h)
    constructor
    · unfold extractIpAddressesFromHeader
      simp [he]
    · intro s hsm hcol
      unfold extractIpAddressesFromHeader at hsm
      simp only [he, Bool.false_eq_true, if_false] at hsm
      rw [List.mem_map] at hsm
      obtain ⟨c, hc, rfl⟩ := hsm
      have hall := ipv4FindAll_digitdot hc
      rw [List.all_eq_true] at hall
      have hdd := hall ':' hcol
      simp [isDigitDot, isDigitChar] at hdd
  · intro h0
    unfold extractIpAddressesFromHeader
    simp [h0]

/-- Witness for C4: a header containing both an IPv6-looking literal and a
bracketed dotted-quad returns only the IPv4 match. -/
theorem c4_ipv4_precedence_witness :
    extractIpAddressesFromHeader "from [2001:db8::1] ([203.0.113.5]) by x".data =
      ["203.0.113.5"] ∧
    ipv6FindAll "from [2001:db8::1] ([203.0.113.5]) by x".data ≠ [] ∧
    ':' ∉ ("203.0.113.5" : String).data :=
  ⟨((c4_ipv4_precedence "from [2001:db8::1] ([203.0.113.5]) by x".data).1
      (by decide)).1.trans (by decide),
   by decide,
   ((c4_ipv4_precedence "from [2001:db8::1] ([203.0.113.5]) by x".data).1
      (by decide)).2 "203.0.113.5" (by decide)⟩

/-- C5: each of the five clause fields of a hop is exactly the result of its
own independent case-insensitive keyword-anchored search over the normalized
header (from/by/with stopping at their respective terminator keywords or a
semicolon, the transfer id a single non-whitespace token, the for-address
running to a semicolon or end of string), with the captured text stripped of
surrounding whitespace; absence of one clause never blocks the others, and
every extracted value is strip-idempotent (trimmed). -/
theorem c5_clause_extraction :
    ∀ (raw : String) (i : Nat),
      ((parseReceivedSingle raw i).from_host =
          (searchFromHost (normalizeWs raw.data)).map
            (fun c => strFromChars (stripChars c)) ∧
       (parseReceivedSingle raw i).by_host =
          (searchByHost (normalizeWs raw.data)).map
            (fun c => strFromChars (stripChars c)) ∧
       (parseReceivedSingle raw i).with_proto =
          (searchWithProto (normalizeWs raw.data)).map
            (fun c => strFromChars (stripChars c)) ∧
       (parseReceivedSingle raw i).id =
          (searchTransferId (normalizeWs raw.data)).map
            (fun c => strFromChars (stripChars c)) ∧
       (parseReceivedSingle raw i).for_addr =
          (searchForAddr (normalizeWs raw.data)).map
            (fun c => strFromChars (stripChars c))) ∧
      ((∀ v, (parseReceivedSingle raw i).from_host = some v → stripStr v = v) ∧
       (∀ v, (parseReceivedSingle raw i).by_host = some v → stripStr v = v) ∧
       (∀ v, (parseReceivedSingle raw i).with_proto = some v → stripStr v = v) ∧
       (∀ v, (parseReceivedSingle raw i).id = some v → stripStr v = v) ∧
       (∀ v, (parseReceivedSingle raw i).for_addr = some v → stripStr v = v)) :=
  fun _ _ =>
    ⟨⟨rfl, rfl, rfl, rfl, rfl⟩,
     ⟨fun _ hv => stripStr_of_stripped hv,
      fun _ hv => stripStr_of_stripped hv,
      fun _ hv => stripStr_of_stripped hv,
      fun _ hv => stripStr_of_stripped hv,
      fun _ hv => stripStr_of_stripped hv⟩⟩

/-- Witness for C5: on a header with all five clauses, the from-capture is
trimmed, and the for-address search result matches the field. -/
theorem c5_clause_extraction_witness :
    stripStr "a" = "a" ∧
    (parseReceivedSingle "from a by b with c id d for e; f" 0).for_addr = some "e" :=
  ⟨(c5_clause_extraction "from a by b with c id d for e; f" 0).2.1 "a" (by decide),
   ((c5_clause_extraction "from a by b with c id d for e; f" 0).1.2.2.2.2).trans
     (by decide)⟩

/-- C6: a header without a semicolon has an absent timestamp; with a
semicolon, the stripped text after the last semicolon goes to the permissive
parser whose failure degrades to absent (`Except.toOption`); the `raw` field
always retains the original text untouched by normalization. -/
theorem c6_timestamp_extraction :
    ∀ (raw : String) (i : Nat),
      (';' ∉ raw.data → (parseReceivedSingle raw i).timestamp = none) ∧
      (';' ∈ raw.data →
        (parseReceivedSingle raw i).timestamp =
          (dtparseE (stripChars (afterLastSemi raw.data))).toOption) ∧
      (parseReceivedSingle raw i).raw = raw := by
  intro raw i
  refine ⟨fun h => ?_, fun h => ?_, rfl⟩
  · show extractTimestampFromReceivedHeader raw.data = none
    simp [extractTimestampFromReceivedHeader, h]
  · show extractTimestampFromReceivedHeader raw.data = _
    simp [extractTimestampFromReceivedHeader, h]

/-- Witness for C6: a parsable RFC-2822 date after the semicolon is
recovered; a header with no semicolon has an absent timestamp. -/
theorem c6_timestamp_extraction_witness :
    (parseReceivedSingle "a; Mon, 1 Jan 2024 10:00:00 +0000" 0).timestamp =
      some ⟨2024, 1, 1, 10, 0, 0, some 0⟩ ∧
    (parseReceivedSingle "plain text without separator" 3).timestamp = none :=
  ⟨((c6_timestamp_extraction _ 0).2.1 (by decide)).trans (by decide),
   (c6_timestamp_extraction _ 3).1 (by decide)⟩

/-- C7: the worked scenario header is parsed into exactly the claimed hop:
all five clauses, the bracketed IPv4 address, `tls = true` (ESMTPS) and the
timestamp 2024-01-01T10:00:00+00:00. -/
theorem c7_scenario_header :
    parseReceivedSingle "from mail.example.com (mail.example.com [203.0.113.5]) by mx.receiver.net with ESMTPS id ABC123 for <user@dest.com>; Mon, 1 Jan 2024 10:00:00 +0000" 0 =
      { index := 0
        raw := "from mail.example.com (mail.example.com [203.0.113.5]) by mx.receiver.net with ESMTPS id ABC123 for <user@dest.com>; Mon, 1 Jan 2024 10:00:00 +0000"
        from_host := some "mail.example.com (mail.example.com [203.0.113.5])"
        by_host := some "mx.receiver.net"
        with_proto := some "ESMTPS"
        id := some "ABC123"
        for_addr := some "<user@dest.com>"
        timestamp := some ⟨2024, 1, 1, 10, 0, 0, some 0⟩
        ips := ["203.0.113.5"]
        tls := some true
        geo := none } := by decide

/-- C8: exactly one verdict per `Authentication-Results` header, in header
order with no merging; each of the three fields is only ever a member of its
closed vocabulary, absent otherwise; and the scenario header yields
`spf=pass, dkim=fail, dmarc=none`. -/
theorem c8_auth_results :
    (∀ m : EmailMessage,
      (parseAuthenticationResults m).parsed =
        m.authResults.map parseSingleAuthenticationHeader ∧
      (parseAuthenticationResults m).parsed.length = m.authResults.length ∧
      (parseAuthenticationResults m).raw = m.authResults) ∧
    (∀ (h : String) (v : String),
      ((parseSingleAuthenticationHeader h).spf = some v → v.data ∈ SPF_VOCAB) ∧
      ((parseSingleAuthenticationHeader h).dkim = some v → v.data ∈ DKIM_VOCAB) ∧
      ((parseSingleAuthenticationHeader h).dmarc = some v → v.data ∈ DMARC_VOCAB)) ∧
    parseSingleAuthenticationHeader
        "mx.google.com; spf=pass smtp.mailfrom=x@y.com; dkim=fail header.i=@y.com; dmarc=none" =
      { spf := some "pass", dkim := some "fail", dmarc := some "none" } := by
  refine ⟨fun m => ⟨rfl, by simp [parseAuthenticationResults], rfl⟩,
    fun h v => ⟨fun hv => ?_, fun hv => ?_, fun hv => ?_⟩, by decide⟩
  · obtain ⟨c, hc, rfl⟩ := Option.map_eq_some'.mp hv
    exact searchKV_mem hc
  · obtain ⟨c, hc, rfl⟩ := Option.map_eq_some'.mp hv
    exact searchKV_mem hc
  · obtain ⟨c, hc, rfl⟩ := Option.map_eq_some'.mp hv
    exact searchKV_mem hc

/-- Witness for C8: the vocabulary-closure part applied at the scenario
header. -/
theorem c8_auth_results_witness :
    ("pass" : String).data ∈ SPF_VOCAB ∧ ("fail" : String).data ∈ DKIM_VOCAB :=
  ⟨(c8_auth_results.2.1
      "mx.google.com; spf=pass smtp.mailfrom=x@y.com; dkim=fail header.i=@y.com; dmarc=none"
      "pass").1 (by decide),
   (c8_auth_results.2.1
      "mx.google.com; spf=pass smtp.mailfrom=x@y.com; dkim=fail header.i=@y.com; dmarc=none"
      "fail").2.1 (by decide)⟩

/-- C9: the geolocation loop calls the collaborator exactly once per hop with
a non-empty address list, with the first address only; hops with no addresses
get no lookup; every parse-derived field survives unchanged and only `geo`
is written, receiving exactly the collaborator's (possibly absent) result, so
a failed lookup leaves `geo` absent without failing the report. -/
theorem c9_geolocation_loop :
    ∀ (geoFn : String → Option GeoRecord) (hops : List Hop),
      geoCallTrace hops = hops.filterMap (fun h => h.ips.head?) ∧
      (attachGeolocation geoFn hops).length = hops.length ∧
      attachGeolocation geoFn hops = hops.map (geoAttachOne geoFn) ∧
      (∀ h : Hop,
        (geoAttachOne geoFn h).index = h.index ∧
        (geoAttachOne geoFn h).raw = h.raw ∧
        (geoAttachOne geoFn h).from_host = h.from_host ∧
        (geoAttachOne geoFn h).by_host = h.by_host ∧
        (geoAttachOne geoFn h).with_proto = h.with_proto ∧
        (geoAttachOne geoFn h).id = h.id ∧
        (geoAttachOne geoFn h).for_addr = h.for_addr ∧
        (geoAttachOne geoFn h).timestamp = h.timestamp ∧
        (geoAttachOne geoFn h).ips = h.ips ∧
        (geoAttachOne geoFn h).tls = h.tls ∧
        (h.ips = [] → geoAttachOne geoFn h = h) ∧
        (∀ ip rest, h.ips = ip :: rest → (geoAttachOne geoFn h).geo = geoFn ip)) := by
  intro geoFn hops
  refine ⟨geoCallTrace_eq_filterMap hops, by simp [attachGeolocation], rfl, fun h => ?_⟩
  exact ⟨by cases e : h.ips <;> simp [geoAttachOne, e],
    by cases e : h.ips <;> simp [geoAttachOne, e],
    by cases e : h.ips <;> simp [geoAttachOne, e],
    by cases e : h.ips <;> simp [geoAttachOne, e],
    by cases e : h.ips <;> simp [geoAttachOne, e],
    by cases e : h.ips <;> simp [geoAttachOne, e],
    by cases e : h.ips <;> simp [geoAttachOne, e],
    by cases e : h.ips <;> simp [geoAttachOne, e],
    by cases e : h.ips <;> simp [geoAttachOne, e],
    by cases e : h.ips <;> simp [geoAttachOne, e],
    fun h0 => by simp [geoAttachOne, h0],
    fun ip rest hh => by simp [geoAttachOne, hh]⟩

/-- Witness for C9: a hop with no addresses is untouched; a hop with two
addresses gets exactly one trace entry, its first address only, and its `geo`
is the collaborator's result for that address. -/
theorem c9_geolocation_loop_witness :
    geoAttachOne (fun _ => none) { index := 0, raw := "a" } =
      { index := 0, raw := "a" } ∧
    (geoAttachOne (fun _ => none)
      { index := 1, raw := "b", ips := ["1.2.3.4", "5.6.7.8"] }).geo = none ∧
    geoCallTrace [{ index := 1, raw := "b", ips := ["1.2.3.4", "5.6.7.8"] }] =
      ["1.2.3.4"] :=
  ⟨((c9_geolocation_loop (fun _ => none) []).2.2.2
      { index := 0, raw := "a" }).2.2.2.2.2.2.2.2.2.2.1 rfl,
   ((c9_geolocation_loop (fun _ => none) []).2.2.2
      { index := 1, raw := "b", ips := ["1.2.3.4", "5.6.7.8"] }).2.2.2.2.2.2.2.2.2.2.2
      "1.2.3.4" ["5.6.7.8"] rfl,
   ((c9_geolocation_loop (fun _ => none)
      [{ index := 1, raw := "b", ips := ["1.2.3.4", "5.6.7.8"] }]).1).trans (by decide)⟩

/-- C10: TLS detection is plain substring containment on the lowercased raw
header, not token-boundary matching: any header containing `ssl` inside a
larger word is classified `tls = true`, even with an explicit plaintext
`with SMTP` clause, because the substring check runs first. -/
theorem c10_tls_substring :
    ∀ l : List Char, containsSub "ssl".data (lcList l) = true →
      detectTlsEncryption l = some true := by
  intro l h
  apply detectTls_true_of_token
  unfold tlsTokenPresent
  rw [List.any_eq_true]
  exact ⟨"ssl".data, by decide, h⟩

/-- Witness for C10: a hostname `ssl-gateway.example.com` forces `true` even
though the header also carries a matching plaintext `with SMTP` clause. -/
theorem c10_tls_substring_witness :
    detectTlsEncryption "from ssl-gateway.example.com by mx with SMTP id 9".data =
      some true ∧
    plainProtoSearch none
      (lcList "from ssl-gateway.example.com by mx with SMTP id 9".data) = true :=
  ⟨c10_tls_substring _ (by decide), by decide⟩

end EmailAnalyzer
